import Mathlib

/-!
Verification of the CarCheckerAI pipeline (src/CarCheckerAI/CarCheckerAI.py).

Python strings are modelled as `List Char`; Python values that flow through
the result normalizer are modelled by the inductive `PyVal`; code that can
raise is modelled in `Except Unit`.  The two language-model calls and the
search backend are external collaborators and appear as oracle function
parameters.  `repr`s of composite Python values feed only the opaque
completion oracle and are abstracted to fixed tags.
-/

namespace CarCheckerAI

abbrev PyStr := List Char

/-- Model of the Python values a search-result item (or one of its fields)
may hold: `None`, `str`, `int`, `bool`, `dict`, `list`, or an SDK object
with attributes and an optional `model_dump`/`dict` method result. -/
inductive PyVal where
  | vnone
  | vstr (s : PyStr)
  | vint (n : Int)
  | vbool (b : Bool)
  | vdict (entries : List (PyStr × PyVal))
  | vlist (xs : List PyVal)
  | vobj (attrs : List (PyStr × PyVal)) (dump : Option (List (PyStr × PyVal)))

abbrev Dict := List (PyStr × PyVal)

/-- Python truthiness of the modelled values. -/
def pyTruthy : PyVal → Bool
  | .vnone => false
  | .vstr s => !s.isEmpty
  | .vint n => n != 0
  | .vbool b => b
  | .vdict d => !d.isEmpty
  | .vlist xs => !xs.isEmpty
  | .vobj _ _ => true

/-- `a or b` on Python values: `a` when truthy, else `b` as-is. -/
def pyOr (a b : PyVal) : PyVal := if pyTruthy a then a else b

/-- `d.get(k)`: `None` when the key is missing. -/
def dget (e : Dict) (k : PyStr) : PyVal := (e.lookup k).getD .vnone

/-- `d.get(k, default)`. -/
def dgetD (e : Dict) (k : PyStr) (dflt : PyVal) : PyVal := (e.lookup k).getD dflt

/-- `getattr(v, k, None)`: only objects carry attributes; on every other
value the default `None` is returned. -/
def pyGetattr (v : PyVal) (k : PyStr) : PyVal :=
  match v with
  | .vobj attrs _ => (attrs.lookup k).getD .vnone
  | _ => .vnone

/-- Calling `.get` on a value: dicts succeed, everything else raises
`AttributeError` (modelled as `.error ()`). -/
def asDict : PyVal → Except Unit Dict
  | .vdict d => .ok d
  | _ => .error ()

def kUrl : PyStr := "url".toList
def kSourceURL : PyStr := "sourceURL".toList
def kSource_url : PyStr := "source_url".toList
def kOg_url : PyStr := "og_url".toList
def kMetadata : PyStr := "metadata".toList
def kMarkdown : PyStr := "markdown".toList
def kData : PyStr := "data".toList

/-- The dict-shaped markdown chain of `safe_get_markdown`:
`item.get("markdown") or (item.get("data") or \x7b\x7d).get("markdown", "") or ""`. -/
def dictMarkdownChain (e : Dict) : Except Unit PyVal :=
  let m := dget e kMarkdown
  if pyTruthy m then .ok m
  else
    let dataV := dget e kData
    match (if pyTruthy dataV then asDict dataV else .ok []) with
    | .error u => .error u
    | .ok d =>
      let m2 := dgetD d kMarkdown (.vstr [])
      if pyTruthy m2 then .ok m2 else .ok (.vstr [])

/-- `safe_get_markdown` (CarCheckerAI.py lines 43-54). -/
def safe_get_markdown (item : PyVal) : Except Unit PyVal :=
  if pyTruthy item = false then .ok (.vstr [])
  else match item with
  | .vdict e => dictMarkdownChain e
  | it =>
    match pyGetattr it kMarkdown with
    | .vstr s => .ok (.vstr s)
    | _ =>
      match it with
      | .vobj _ (some d) => dictMarkdownChain d
      | _ => .ok (.vstr [])

/-- The dict-shaped URL chain of `safe_get_url`:
`item.get("url") or item.get("sourceURL") or (item.get("metadata") or \x7b\x7d).get("sourceURL") or (...).get("url") or (...).get("source_url")`.
The last operand is returned as-is when every lookup is falsy. -/
def dictUrlChain (e : Dict) : Except Unit PyVal :=
  let a := dget e kUrl
  if pyTruthy a then .ok a
  else
    let b := dget e kSourceURL
    if pyTruthy b then .ok b
    else
      let mV := dget e kMetadata
      match (if pyTruthy mV then asDict mV else .ok []) with
      | .error u => .error u
      | .ok m =>
        let c1 := dget m kSourceURL
        if pyTruthy c1 then .ok c1
        else
          let c2 := dget m kUrl
          if pyTruthy c2 then .ok c2 else .ok (dget m kSource_url)

/-- `safe_get_url` (CarCheckerAI.py lines 56-82). -/
def safe_get_url (item : PyVal) : Except Unit PyVal :=
  if pyTruthy item = false then .ok .vnone
  else match item with
  | .vdict e => dictUrlChain e
  | it =>
    let u := pyOr (pyGetattr it kUrl) (pyGetattr it kSourceURL)
    if pyTruthy u then .ok u
    else
      let mdv := pyGetattr it kMetadata
      if pyTruthy mdv then
        .ok (pyOr (pyGetattr mdv kSource_url)
              (pyOr (pyGetattr mdv kSourceURL)
                (pyOr (pyGetattr mdv kUrl) (pyGetattr mdv kOg_url))))
      else
        match it with
        | .vobj _ (some d) => dictUrlChain d
        | _ => .ok .vnone

/-- `str.lstrip()`. -/
def pyLStrip (s : PyStr) : PyStr := s.dropWhile Char.isWhitespace

/-- `str.rstrip()`. -/
def pyRStrip (s : PyStr) : PyStr := (s.reverse.dropWhile Char.isWhitespace).reverse

/-- `str.strip()`. -/
def pyStrip (s : PyStr) : PyStr := pyRStrip (pyLStrip s)

/-- `chunk.rfind "\n\n"`: the largest index at which `"\n\n"` occurs, or
`none` (Python `-1`) when it does not occur. -/
def rfind2 (l : PyStr) : Option Nat :=
  ((List.range l.length).filter
    (fun i => l.get? i == some '\n' && l.get? (i + 1) == some '\n')).getLast?

/-- The chunk taken by one iteration of `chunk_text`
(CarCheckerAI.py lines 91-95): up to `max_chars` characters, cut back to
the last paragraph break when that break lies past the halfway point. -/
def chunkOf (maxChars : Nat) (text : PyStr) : PyStr :=
  let chunk := text.take maxChars
  match rfind2 chunk with
  | some cut => if maxChars / 2 < cut then text.take cut else chunk
  | none => chunk

/-- One loop of `chunk_text` (CarCheckerAI.py lines 90-97), fuel-indexed so
that the Python loop's divergence at `max_chars = 0` is representable:
`none` means the fuel ran out before the text was exhausted. -/
def chunkTextLoop (maxChars : Nat) : Nat → PyStr → List PyStr → Option (List PyStr)
  | _, [], acc => some acc
  | 0, _ :: _, _ => none
  | fuel + 1, c :: cs, acc =>
    let chunk := chunkOf maxChars (c :: cs)
    chunkTextLoop maxChars fuel (pyLStrip ((c :: cs).drop chunk.length)) (acc ++ [pyStrip chunk])

/-- `chunk_text` (CarCheckerAI.py lines 84-98), run with enough fuel for any
terminating execution; `none` exactly when the Python loop diverges. -/
def chunk_text (text : PyStr) (maxChars : Nat) : Option (List PyStr) :=
  let t := pyStrip text
  chunkTextLoop maxChars (t.length + 1) t []

/-- Divergence of `chunk_text` at a given input: some fuel suffices. -/
def ChunkTextTerminates (maxChars : Nat) (text : PyStr) : Prop :=
  ∃ fuel, (chunkTextLoop maxChars fuel (pyStrip text) []).isSome

def nl2 : PyStr := "\n\n".toList
def startMark : PyStr := "--START--".toList
def middleMark : PyStr := "--MIDDLE--".toList
def endMark : PyStr := "--END--".toList

/-- `_compress_for_single_request` (CarCheckerAI.py lines 100-116).
The three separators are `"\n\n--START--\n\n"` etc., written as
`nl2 ++ mark ++ nl2`.  Since in the long branch `len(text) > max_chars`,
the Python indices `middle_index - part//2` and `len(text) - part` are
nonnegative, so truncated `Nat` subtraction agrees with Python. -/
def compress_for_single_request (text : PyStr) (max_chars : Nat) : PyStr :=
  if text = [] then []
  else
    let t := pyStrip text
    if t.length ≤ max_chars then t
    else
      let part := max_chars / 3
      let start := t.take part
      let middle_index := t.length / 2
      let middle := (t.drop (middle_index - part / 2)).take
        ((middle_index + part / 2) - (middle_index - part / 2))
      let endPart := if part = 0 then t else t.drop (t.length - part)
      nl2 ++ startMark ++ nl2 ++ start ++ nl2 ++ middleMark ++ nl2 ++ middle ++
        nl2 ++ endMark ++ nl2 ++ endPart

/-- `pat` occurs as a contiguous substring of `l`. -/
def HasMarker (pat l : PyStr) : Prop := ∃ u v, l = u ++ pat ++ v

/-- `str(v)` as interpolated into prompt f-strings.  Prompts feed only the
opaque completion oracle, so `repr`s of composite values are abstracted to
fixed tags. -/
def pyFormat : PyVal → PyStr
  | .vnone => "None".toList
  | .vstr s => s
  | .vint n => (toString n).toList
  | .vbool b => (if b then "True" else "False").toList
  | .vdict _ => "<dict>".toList
  | .vlist _ => "<list>".toList
  | .vobj _ _ => "<object>".toList

def docPromptA : PyStr :=
  ("Produce a concise summary of the following document in 2 short paragraphs (2-5 sentences each).\n" ++
   "Focus on: main drawbacks, common mechanical issues (mention relative frequency if present), and main positives.\n" ++
   "End with a single-line source attribution exactly as: Source: ").toList

def docPromptB : PyStr := "\n\nDocument:\n".toList

/-- The prompt of `summarize_document` (CarCheckerAI.py lines 135-142). -/
def docPrompt (payload : PyStr) (url : PyVal) : PyStr :=
  docPromptA ++ pyFormat url ++ docPromptB ++ payload

/-- `summarize_document` (CarCheckerAI.py lines 131-147).  `genai` is the
external completion oracle mapping the prompt to the response text.
On a truthy non-string `md_text`, `.strip()` inside
`_compress_for_single_request` raises; this surfaces here as `.error ()`. -/
def summarize_document (genai : PyStr → PyStr) (md : PyVal) (url : PyVal) :
    Except Unit (Option PyStr) :=
  if pyTruthy md = false then .ok none
  else match md with
    | .vstr s => .ok (some (genai (docPrompt (compress_for_single_request s 20000) url)))
    | _ => .error ()

def specsPromptHeader : PyStr :=
  ("You are given several specification documents for a car. For each document, extract the following fields if present:\n" ++
   "Output a JSON array with one object per source in the same order. Each object must include \"source_url\" and the fields above (use null for missing fields).\n\nDocuments:\n").toList

/-- `combined` of `extract_specs_from_docs` (CarCheckerAI.py line 154). -/
def specsCombined (specs_texts urls : List PyVal) : PyStr :=
  List.intercalate ("\n\n---\n\n".toList)
    ((urls.zip specs_texts).map
      (fun p => "URL: ".toList ++ pyFormat p.1 ++ nl2 ++ pyFormat p.2))

def specsPrompt (specs_texts urls : List PyVal) : PyStr :=
  specsPromptHeader ++ specsCombined specs_texts urls

/-- The value of `specs_structured`: a parsed JSON value, the raw-text
fallback wrapper, or the Python literal `[]` used when no spec text was
collected. -/
inductive SpecsOutcome (J : Type) where
  | parsed (v : J)
  | raw (s : PyStr)
  | emptyList

/-- `extract_specs_from_docs` (CarCheckerAI.py lines 149-199).  `genai` is
the completion oracle; `loads` models `json.loads`, `none` meaning the
parse raised. -/
def extract_specs_from_docs {J : Type} (specs_texts urls : List PyVal)
    (genai : PyStr → PyStr) (loads : PyStr → Option J) : SpecsOutcome J :=
  let text := genai (specsPrompt specs_texts urls)
  match loads text with
  | some v => .parsed v
  | none => .raw text

/-- `allowed_doc_calls = max(0, max_genai_calls - 2)` (line 229). -/
def allowed_doc_calls (max_genai_calls : Nat) : Nat := max 0 (max_genai_calls - 2)

/-- `doc_limit = min(searchLimit, allowed_doc_calls)` (line 230). -/
def doc_limit (searchLimit max_genai_calls : Nat) : Nat :=
  min searchLimit (allowed_doc_calls max_genai_calls)

structure SummaryEntry where
  url : PyVal
  summary : PyStr

/-- The per-document summary loop of `search_and_summarize`
(CarCheckerAI.py lines 243-253), instrumented with the number of
completion-oracle calls issued by `summarize_document`. -/
def docSummaryLoop (genai : PyStr → PyStr) (dl : Nat) :
    List PyVal → List SummaryEntry → Nat → Except Unit (List SummaryEntry × Nat)
  | [], acc, calls => .ok (acc, calls)
  | item :: rest, acc, calls =>
    if dl ≤ acc.length then .ok (acc, calls)
    else
      match safe_get_url item with
      | .error u => .error u
      | .ok url =>
        match safe_get_markdown item with
        | .error u => .error u
        | .ok md =>
          if pyTruthy md = false then docSummaryLoop genai dl rest acc calls
          else
            match summarize_document genai md url with
            | .error u => .error u
            | .ok doc_summary =>
              match doc_summary with
              | some s =>
                if s.isEmpty then docSummaryLoop genai dl rest acc (calls + 1)
                else docSummaryLoop genai dl rest (acc ++ [⟨url, s⟩]) (calls + 1)
              | none => docSummaryLoop genai dl rest acc calls

/-- The spec-document collection loop (CarCheckerAI.py lines 256-263):
returns `(specs_texts, specs_urls)` in order. -/
def specsCollect : List PyVal → Except Unit (List PyVal × List PyVal)
  | [] => .ok ([], [])
  | s :: rest =>
    match safe_get_url s with
    | .error u => .error u
    | .ok url =>
      match safe_get_markdown s with
      | .error u => .error u
      | .ok md =>
        match specsCollect rest with
        | .error u => .error u
        | .ok (ts, us) =>
          if pyTruthy md then .ok (md :: ts, pyOr url (.vstr "unknown".toList) :: us)
          else .ok (ts, us)

def finalPromptA : PyStr :=
  "Using the following per-document summaries and the extracted specification data, produce a 2-3 paragraph concise summary of ".toList

def finalPromptB : PyStr := " reviews.\n\nDocuments:\n".toList

def finalPromptC : PyStr := "\n\nExtracted Specifications (JSON):\n".toList

/-- `search_and_summarize` (CarCheckerAI.py lines 214-321).  The two
searches and `normalize_results` are the external boundary: `items` and
`specsItems` are the normalized review/spec result lists.  `docG`,
`specsG`, `finalG` are the completion oracle at the three call sites;
`loads` models `json.loads` and `dumps` models `json.dumps`. -/
def search_and_summarize {J : Type} (items specsItems : List PyVal)
    (docG specsG finalG : PyStr → PyStr)
    (loads : PyStr → Option J) (dumps : SpecsOutcome J → PyStr)
    (searchLimit specLimit max_genai_calls : Nat) (car_label : PyStr) :
    Except Unit (PyStr × List SummaryEntry) :=
  let dl := doc_limit searchLimit max_genai_calls
  match docSummaryLoop docG dl items [] 0 with
  | .error u => .error u
  | .ok (summaries, _calls) =>
    match specsCollect (specsItems.take specLimit) with
    | .error u => .error u
    | .ok (specs_texts, specs_urls) =>
      let specs_structured : SpecsOutcome J :=
        if specs_texts.isEmpty then .emptyList
        else extract_specs_from_docs specs_texts specs_urls specsG loads
      let combined_summaries := List.intercalate nl2
        (summaries.map (fun s => "From ".toList ++ pyFormat s.url ++ ":\n".toList ++ s.summary))
      let specsDoc :=
        if specs_texts.isEmpty then "No specs found.".toList else dumps specs_structured
      let final_prompt := finalPromptA ++ car_label ++ finalPromptB ++
        combined_summaries ++ finalPromptC ++ specsDoc
      .ok (finalG final_prompt, summaries)

/-- A reference store of Python dicts, to express the in-place mutation
semantics of `dict.copy()`/`dict.update()` for the scrape-options merge. -/
structure Store where
  dicts : List Dict

def Store.read (st : Store) (r : Nat) : Dict := st.dicts.getD r []

/-- `d.copy()`: allocate a fresh dict holding the same entries. -/
def Store.copy (st : Store) (r : Nat) : Store × Nat :=
  (⟨st.dicts ++ [st.read r]⟩, st.dicts.length)

/-- `d[k] = v` preserving insertion order for existing keys. -/
def dictSet : Dict → PyStr → PyVal → Dict
  | [], k, v => [(k, v)]
  | (k', v') :: rest, k, v =>
    if k' = k then (k', v) :: rest else (k', v') :: dictSet rest k v

/-- `d.update(kvs)` applied in place to the dict at reference `r`. -/
def Store.update (st : Store) (r : Nat) (kvs : Dict) : Store :=
  ⟨st.dicts.set r (kvs.foldl (fun acc p => dictSet acc p.1 p.2) (st.read r))⟩

/-- `DEFAULT_SCRAPE_OPTS` (CarCheckerAI.py lines 20-26). -/
def DEFAULT_SCRAPE_OPTS : Dict :=
  [("formats".toList, .vlist [.vstr "markdown".toList, .vstr "links".toList]),
   ("only_main_content".toList, .vbool true),
   ("timeout".toList, .vint 120000),
   ("location".toList, .vdict [("languages".toList, .vlist [.vstr "en".toList])]),
   ("parsers".toList, .vlist [])]

/-- Truthiness of the `scrape_options` parameter (`None` or a dict). -/
def optTruthy : Option Dict → Bool
  | none => false
  | some d => !d.isEmpty

/-- The scrape-options prologue of `search_and_summarize`
(CarCheckerAI.py lines 222-226): both branches copy the default dict and
only the copy is updated.  Returns the store and the reference to `opts`. -/
def setupOpts (st : Store) (defaultRef : Nat) (scrape_options : Option Dict) :
    Store × Nat :=
  if optTruthy scrape_options then
    let (st', r) := st.copy defaultRef
    (st'.update r (scrape_options.getD []), r)
  else st.copy defaultRef

/-- A review item whose normalized markdown is non-empty (a document the
orchestrator summarizes). -/
def hasMd (it : PyVal) : Bool :=
  match safe_get_markdown it with
  | .ok v => pyTruthy v
  | .error _ => false

/-- A result item on which the normalizer succeeds and yields a string
markdown (the shapes the backend actually produces). -/
def GoodItem (it : PyVal) : Prop :=
  (∃ u, safe_get_url it = .ok u) ∧ (∃ s, safe_get_markdown it = .ok (.vstr s))

/-- The field at `k`, when truthy, is a dict. -/
def FieldDictOrFalsy (e : Dict) (k : PyStr) : Prop :=
  pyTruthy (dget e k) = true → ∃ m, dget e k = .vdict m

/-- Shapes on which the normalizer's `(... or \x7b\x7d).get(...)` chains
cannot raise: every truthy `metadata`/`data` field is a dict. -/
def SafeShape : PyVal → Prop
  | .vdict e => FieldDictOrFalsy e kMetadata ∧ FieldDictOrFalsy e kData
  | .vobj _ dump => ∀ d, dump = some d → FieldDictOrFalsy d kMetadata ∧ FieldDictOrFalsy d kData
  | _ => True

/-! ### Helper lemmas -/

theorem pyLStrip_length_le (s : PyStr) : (pyLStrip s).length ≤ s.length :=
  List.Sublist.length_le (List.dropWhile_sublist _)

theorem pyStrip_length_le (s : PyStr) : (pyStrip s).length ≤ s.length := by
  unfold pyStrip pyRStrip
  calc ((pyLStrip s).reverse.dropWhile Char.isWhitespace).reverse.length
      = ((pyLStrip s).reverse.dropWhile Char.isWhitespace).length := List.length_reverse _
    _ ≤ (pyLStrip s).reverse.length := List.Sublist.length_le (List.dropWhile_sublist _)
    _ = (pyLStrip s).length := List.length_reverse _
    _ ≤ s.length := pyLStrip_length_le s

theorem mem_of_getLast?_eq {α : Type} {l : List α} {a : α}
    (h : l.getLast? = some a) : a ∈ l := by
  have hm : a ∈ l.getLast? := Option.mem_def.mpr h
  rcases List.mem_getLast?_eq_getLast hm with ⟨hne, rfl⟩
  exact List.getLast_mem hne

theorem rfind2_lt {l : PyStr} {i : Nat} (h : rfind2 l = some i) : i < l.length := by
  have hmem := mem_of_getLast?_eq h
  have := List.mem_filter.mp hmem
  exact List.mem_range.mp this.1

theorem HasMarker_length {pat l : PyStr} (h : HasMarker pat l) :
    pat.length ≤ l.length := by
  rcases h with ⟨u, v, rfl⟩
  simp [List.length_append]
  omega

theorem chunkOf_length_le (mc : Nat) (text : PyStr) :
    (chunkOf mc text).length ≤ mc := by
  unfold chunkOf
  have htake : (text.take mc).length ≤ mc := List.length_take_le mc text
  cases hr : rfind2 (text.take mc) with
  | none => simp only [hr]; exact htake
  | some cut =>
    have hcut : cut < (text.take mc).length := rfind2_lt hr
    by_cases hc : mc / 2 < cut
    · simp only [hr, if_pos hc]
      have := List.length_take_le cut text
      omega
    · simp only [hr, if_neg hc]; exact htake

theorem chunkOf_ne_nil (mc : Nat) (hmc : 1 ≤ mc) {text : PyStr}
    (ht : text ≠ []) : chunkOf mc text ≠ [] := by
  unfold chunkOf
  cases hr : rfind2 (text.take mc) with
  | none =>
    simp only [hr]
    rw [Ne, List.take_eq_nil_iff]
    push_neg
    exact ⟨by omega, ht⟩
  | some cut =>
    by_cases hc : mc / 2 < cut
    · simp only [hr, if_pos hc]
      rw [Ne, List.take_eq_nil_iff]
      push_neg
      exact ⟨by omega, ht⟩
    · simp only [hr, if_neg hc]
      rw [Ne, List.take_eq_nil_iff]
      push_neg
      exact ⟨by omega, ht⟩

theorem chunkTextLoop_isSome (mc : Nat) (hmc : 1 ≤ mc) :
    ∀ fuel text acc, text.length < fuel →
      (chunkTextLoop mc fuel text acc).isSome = true := by
  intro fuel
  induction fuel with
  | zero => intro text acc h; exact absurd h (Nat.not_lt_zero _)
  | succ n ih =>
    intro text acc h
    match text with
    | [] => simp [chunkTextLoop]
    | c :: cs =>
      rw [chunkTextLoop]
      apply ih
      have h1 : 1 ≤ (chunkOf mc (c :: cs)).length := by
        have := chunkOf_ne_nil mc hmc (show (c :: cs : PyStr) ≠ [] by simp)
        cases he : chunkOf mc (c :: cs) with
        | nil => exact absurd he this
        | cons a as => simp
      have h2 : (pyLStrip ((c :: cs).drop (chunkOf mc (c :: cs)).length)).length ≤
          (c :: cs).length - (chunkOf mc (c :: cs)).length := by
        calc (pyLStrip ((c :: cs).drop (chunkOf mc (c :: cs)).length)).length
            ≤ ((c :: cs).drop (chunkOf mc (c :: cs)).length).length :=
              pyLStrip_length_le _
          _ = (c :: cs).length - (chunkOf mc (c :: cs)).length := List.length_drop _ _
      have h3 : (c :: cs).length = cs.length + 1 := by simp
      omega

theorem chunkTextLoop_bound (mc : Nat) :
    ∀ fuel text acc res, chunkTextLoop mc fuel text acc = some res →
      (∀ a ∈ acc, a.length ≤ mc) → ∀ p ∈ res, p.length ≤ mc := by
  intro fuel
  induction fuel with
  | zero =>
    intro text acc res h hacc
    match text with
    | [] => simp [chunkTextLoop] at h; exact h ▸ hacc
    | c :: cs => simp [chunkTextLoop] at h
  | succ n ih =>
    intro text acc res h hacc
    match text with
    | [] => simp [chunkTextLoop] at h; exact h ▸ hacc
    | c :: cs =>
      rw [chunkTextLoop] at h
      refine ih _ _ _ h ?_
      intro a ha
      rcases List.mem_append.mp ha with ha | ha
      · exact hacc a ha
      · have : a = pyStrip (chunkOf mc (c :: cs)) := by simpa using ha
        subst this
        calc (pyStrip (chunkOf mc (c :: cs))).length
            ≤ (chunkOf mc (c :: cs)).length := pyStrip_length_le _
          _ ≤ mc := chunkOf_length_le mc _

theorem chunkTextLoop_count (mc : Nat) (hmc : 1 ≤ mc) :
    ∀ fuel text acc res, chunkTextLoop mc fuel text acc = some res →
      res.length ≤ acc.length + text.length := by
  intro fuel
  induction fuel with
  | zero =>
    intro text acc res h
    match text with
    | [] => simp [chunkTextLoop] at h; simp [← h]
    | c :: cs => simp [chunkTextLoop] at h
  | succ n ih =>
    intro text acc res h
    match text with
    | [] => simp [chunkTextLoop] at h; simp [← h]
    | c :: cs =>
      rw [chunkTextLoop] at h
      have := ih _ _ _ h
      have h1 : 1 ≤ (chunkOf mc (c :: cs)).length := by
        have := chunkOf_ne_nil mc hmc (show (c :: cs : PyStr) ≠ [] by simp)
        cases he : chunkOf mc (c :: cs) with
        | nil => exact absurd he this
        | cons a as => simp
      have h2 : (pyLStrip ((c :: cs).drop (chunkOf mc (c :: cs)).length)).length ≤
          (c :: cs).length - (chunkOf mc (c :: cs)).length := by
        calc (pyLStrip ((c :: cs).drop (chunkOf mc (c :: cs)).length)).length
            ≤ ((c :: cs).drop (chunkOf mc (c :: cs)).length).length :=
              pyLStrip_length_le _
          _ = (c :: cs).length - (chunkOf mc (c :: cs)).length := List.length_drop _ _
      have h3 : (acc ++ [pyStrip (chunkOf mc (c :: cs))]).length = acc.length + 1 := by
        simp
      have h4 : (c :: cs).length = cs.length + 1 := by simp
      omega

theorem chunkTextLoop_zero_diverges :
    ∀ fuel acc, chunkTextLoop 0 fuel ['a'] acc = none := by
  intro fuel
  induction fuel with
  | zero => intro acc; rfl
  | succ n ih =>
    intro acc
    rw [chunkTextLoop]
    have hchunk : chunkOf 0 ['a'] = [] := rfl
    rw [hchunk]
    exact ih _

theorem HasMarker_refl (pat : PyStr) : HasMarker pat pat :=
  ⟨[], [], by simp⟩

theorem HasMarker.append_right {pat l : PyStr} (h : HasMarker pat l) (l' : PyStr) :
    HasMarker pat (l ++ l') := by
  rcases h with ⟨u, v, rfl⟩
  exact ⟨u, v ++ l', by simp [List.append_assoc]⟩

theorem HasMarker.append_left {pat l : PyStr} (h : HasMarker pat l) (l' : PyStr) :
    HasMarker pat (l' ++ l) := by
  rcases h with ⟨u, v, rfl⟩
  exact ⟨l' ++ u, v, by simp [List.append_assoc]⟩

theorem compress_short (t : PyStr) (mc : Nat) (h : (pyStrip t).length ≤ mc) :
    compress_for_single_request t mc = pyStrip t := by
  by_cases ht : t = []
  · subst ht; rfl
  · unfold compress_for_single_request
    simp only [if_neg ht, if_pos h]

theorem compress_long (t : PyStr) (mc : Nat) (hlen : ¬ (pyStrip t).length ≤ mc) :
    compress_for_single_request t mc =
      nl2 ++ startMark ++ nl2 ++ (pyStrip t).take (mc / 3) ++
      nl2 ++ middleMark ++ nl2 ++
      (((pyStrip t).drop ((pyStrip t).length / 2 - mc / 3 / 2)).take
        (((pyStrip t).length / 2 + mc / 3 / 2) - ((pyStrip t).length / 2 - mc / 3 / 2))) ++
      nl2 ++ endMark ++ nl2 ++
      (if mc / 3 = 0 then pyStrip t
       else (pyStrip t).drop ((pyStrip t).length - mc / 3)) := by
  have ht : t ≠ [] := by
    intro he
    subst he
    exact hlen (by simp [pyStrip, pyRStrip, pyLStrip])
  unfold compress_for_single_request
  simp only [if_neg ht, if_neg hlen]

theorem compress_length_le (t : PyStr) (mc : Nat) (hmc : 3 ≤ mc) :
    (compress_for_single_request t mc).length ≤ mc + 38 := by
  by_cases h : (pyStrip t).length ≤ mc
  · rw [compress_short t mc h]; omega
  · rw [compress_long t mc h]
    have hp : mc / 3 ≠ 0 := by omega
    rw [if_neg hp]
    have e2 : nl2.length = 2 := rfl
    have e9 : startMark.length = 9 := rfl
    have e10 : middleMark.length = 10 := rfl
    have e7 : endMark.length = 7 := rfl
    simp only [List.length_append, e2, e9, e10, e7, List.length_take, List.length_drop]
    omega

/-- **C2** (corrected). The claim as stated — output length ≤ budget for
every positive budget — is false: the long branch appends 38 separator
characters.  Amended: for every text and every budget of at least 3
characters, the compressor's output length is at most the budget plus the
fixed 38-character separator overhead. -/
theorem claim_C2 (text : PyStr) (max_chars : Nat) (h : 3 ≤ max_chars) :
    (compress_for_single_request text max_chars).length ≤ max_chars + 38 :=
  compress_length_le text max_chars h

theorem claim_C2_witness :
    3 ≤ 20 ∧ (compress_for_single_request (List.replicate 21 'a') 20).length ≤ 20 + 38 :=
  ⟨by omega, claim_C2 (List.replicate 21 'a') 20 (by omega)⟩

/-- **C2 counterexample**: a 21-character text with budget 20 compresses to
56 characters, exceeding the budget. -/
theorem claim_C2_counterexample :
    ¬ (compress_for_single_request (List.replicate 21 'a') 20).length ≤ 20 := by
  decide

/-- **C3** (corrected). The case split in the code is on the length of the
*stripped* text, not the raw input (a long input that strips below the
budget is returned without markers), and the `budget + 38` bound needs a
budget of at least 3.  Amended: if the stripped input's length is ≤ the
budget the output is the stripped input; if the stripped length exceeds a
budget ≥ 3, the output contains all three separator markers and has length
at most the budget plus the 38-character separator overhead. -/
theorem claim_C3 (text : PyStr) (max_chars : Nat) :
    ((pyStrip text).length ≤ max_chars →
      compress_for_single_request text max_chars = pyStrip text) ∧
    (3 ≤ max_chars → max_chars < (pyStrip text).length →
      HasMarker startMark (compress_for_single_request text max_chars) ∧
      HasMarker middleMark (compress_for_single_request text max_chars) ∧
      HasMarker endMark (compress_for_single_request text max_chars) ∧
      (compress_for_single_request text max_chars).length ≤ max_chars + 38) := by
  constructor
  · exact compress_short text max_chars
  · intro hmc hlen
    have hlen' : ¬ (pyStrip text).length ≤ max_chars := by omega
    refine ⟨?_, ?_, ?_, compress_length_le text max_chars hmc⟩
    · rw [compress_long text max_chars hlen']
      apply HasMarker.append_right
      apply HasMarker.append_right
      apply HasMarker.append_right
      apply HasMarker.append_right
      apply HasMarker.append_right
      apply HasMarker.append_right
      apply HasMarker.append_right
      apply HasMarker.append_right
      apply HasMarker.append_right
      apply HasMarker.append_right
      exact (HasMarker_refl startMark).append_left nl2
    · rw [compress_long text max_chars hlen']
      apply HasMarker.append_right
      apply HasMarker.append_right
      apply HasMarker.append_right
      apply HasMarker.append_right
      apply HasMarker.append_right
      apply HasMarker.append_right
      exact (HasMarker_refl middleMark).append_left _
    · rw [compress_long text max_chars hlen']
      apply HasMarker.append_right
      apply HasMarker.append_right
      exact (HasMarker_refl endMark).append_left _

theorem claim_C3_witness :
    compress_for_single_request (List.replicate 2 'b') 5 = pyStrip (List.replicate 2 'b') ∧
    (HasMarker startMark (compress_for_single_request (List.replicate 25 'b') 6) ∧
      HasMarker middleMark (compress_for_single_request (List.replicate 25 'b') 6) ∧
      HasMarker endMark (compress_for_single_request (List.replicate 25 'b') 6) ∧
      (compress_for_single_request (List.replicate 25 'b') 6).length ≤ 6 + 38) :=
  ⟨(claim_C3 (List.replicate 2 'b') 5).1 (by decide),
   (claim_C3 (List.replicate 25 'b') 6).2 (by omega) (by decide)⟩

/-- **C3 counterexample**: the input `"a     "` (one letter, five trailing
spaces) has raw length 6 > budget 5, yet the output is just `"a"` — it
contains no `--START--` marker, refuting the claim's raw-length reading. -/
theorem claim_C3_counterexample :
    ('a' :: List.replicate 5 ' ').length = 6 ∧
    ¬ HasMarker startMark
      (compress_for_single_request ('a' :: List.replicate 5 ' ') 5) := by
  constructor
  · decide
  · intro h
    have hc : compress_for_single_request ('a' :: List.replicate 5 ' ') 5 = ['a'] := by decide
    rw [hc] at h
    have := HasMarker_length h
    simp [startMark] at this

/-- **C4** (confirmed). Every chunk produced by `chunk_text` with a positive
character budget has length at most that budget. -/
theorem claim_C4 (text : PyStr) (max_chars : Nat) (cs : List PyStr) (c : PyStr)
    (_hmc : 0 < max_chars) (h : chunk_text text max_chars = some cs) (hc : c ∈ cs) :
    c.length ≤ max_chars := by
  unfold chunk_text at h
  exact chunkTextLoop_bound max_chars _ _ _ _ h (by intro a ha; simp at ha) c hc

theorem claim_C4_witness : (['a'] : PyStr).length ≤ 1 :=
  claim_C4 ['a'] 1 [['a']] ['a'] (by omega) (by decide) (by decide)

/-- **C5** (corrected). The claim quantifies over *every* budget, but with
`max_chars = 0` the Python loop makes no progress and diverges (see the
counterexample).  Amended: for every text and every *positive* budget,
`chunk_text` terminates with a finite chunk list of at most as many chunks
as the stripped text has characters, and it is a pure function of its
input (two runs on the same input give the same result). -/
theorem claim_C5 (text : PyStr) (max_chars : Nat) (hmc : 1 ≤ max_chars) :
    (∃ cs, chunk_text text max_chars = some cs ∧ cs.length ≤ (pyStrip text).length) ∧
    chunk_text text max_chars = chunk_text text max_chars := by
  refine ⟨?_, rfl⟩
  have hs := chunkTextLoop_isSome max_chars hmc ((pyStrip text).length + 1)
    (pyStrip text) [] (by omega)
  rcases Option.isSome_iff_exists.mp hs with ⟨cs, hcs⟩
  refine ⟨cs, hcs, ?_⟩
  have := chunkTextLoop_count max_chars hmc _ _ _ _ hcs
  simpa using this

theorem claim_C5_witness :
    (∃ cs, chunk_text ['a', 'b'] 2 = some cs ∧ cs.length ≤ (pyStrip ['a', 'b']).length) ∧
    chunk_text ['a', 'b'] 2 = chunk_text ['a', 'b'] 2 :=
  claim_C5 ['a', 'b'] 2 (by omega)

/-- **C5 counterexample**: with budget 0 and text `"a"` no amount of fuel
exhausts the loop — the Python `while` never terminates. -/
theorem claim_C5_counterexample : ¬ ChunkTextTerminates 0 ['a'] := by
  intro h
  rcases h with ⟨fuel, hf⟩
  have hstrip : pyStrip ['a'] = ['a'] := by decide
  rw [hstrip, chunkTextLoop_zero_diverges fuel []] at hf
  simp at hf

theorem dget_nil (k : PyStr) : dget [] k = .vnone := rfl

theorem vdict_truthy {e : Dict} (he : e ≠ []) : pyTruthy (.vdict e) = true := by
  cases e with
  | nil => exact absurd rfl he
  | cons a as => rfl

/-- The object branch of `safe_get_url`, with the trailing `model_dump`
fallback exposed as a match on the dump. -/
theorem safe_get_url_vobj (attrs : Dict) (dmp : Option Dict) :
    safe_get_url (.vobj attrs dmp) =
      (if pyTruthy (pyOr (pyGetattr (.vobj attrs dmp) kUrl)
            (pyGetattr (.vobj attrs dmp) kSourceURL)) then
        .ok (pyOr (pyGetattr (.vobj attrs dmp) kUrl)
              (pyGetattr (.vobj attrs dmp) kSourceURL))
      else if pyTruthy (pyGetattr (.vobj attrs dmp) kMetadata) then
        .ok (pyOr (pyGetattr (pyGetattr (.vobj attrs dmp) kMetadata) kSource_url)
              (pyOr (pyGetattr (pyGetattr (.vobj attrs dmp) kMetadata) kSourceURL)
                (pyOr (pyGetattr (pyGetattr (.vobj attrs dmp) kMetadata) kUrl)
                  (pyGetattr (pyGetattr (.vobj attrs dmp) kMetadata) kOg_url))))
      else match dmp with
        | some d => dictUrlChain d
        | none => .ok .vnone) := by
  cases dmp <;> rfl

/-- The object branch of `safe_get_markdown`, with the trailing
`model_dump` fallback exposed as a match on the dump. -/
theorem safe_get_markdown_vobj (attrs : Dict) (dmp : Option Dict) :
    safe_get_markdown (.vobj attrs dmp) =
      (match pyGetattr (.vobj attrs dmp) kMarkdown with
       | .vstr s => .ok (.vstr s)
       | _ => match dmp with
         | some d => dictMarkdownChain d
         | none => .ok (.vstr [])) := by
  cases dmp <;> rfl

/-- **C6** (corrected). The dict precedence order is as claimed —
`url` → `sourceURL` → `metadata.sourceURL` → `metadata.url` →
`metadata.source_url`, first truthy match wins — and the object-shaped
metadata lookup includes the `og_url` fallback.  But when no lookup is
non-empty the `or`-chain returns its *last operand as-is*: `None` when
`metadata.source_url` is absent, yet the empty string when that key is
present and empty, so "null returned when none match" fails. -/
theorem claim_C6 (e m : Dict) (attrs : Dict) (dmp : Option Dict) :
    (pyTruthy (dget e kUrl) = true →
      safe_get_url (.vdict e) = .ok (dget e kUrl)) ∧
    (pyTruthy (dget e kUrl) = false → pyTruthy (dget e kSourceURL) = true →
      safe_get_url (.vdict e) = .ok (dget e kSourceURL)) ∧
    (pyTruthy (dget e kUrl) = false → pyTruthy (dget e kSourceURL) = false →
      dget e kMetadata = .vdict m →
      safe_get_url (.vdict e) =
        .ok (pyOr (dget m kSourceURL) (pyOr (dget m kUrl) (dget m kSource_url)))) ∧
    (pyTruthy (pyGetattr (.vobj attrs dmp) kUrl) = false →
      pyTruthy (pyGetattr (.vobj attrs dmp) kSourceURL) = false →
      pyTruthy (pyGetattr (.vobj attrs dmp) kMetadata) = true →
      safe_get_url (.vobj attrs dmp) =
        .ok (pyOr (pyGetattr (pyGetattr (.vobj attrs dmp) kMetadata) kSource_url)
          (pyOr (pyGetattr (pyGetattr (.vobj attrs dmp) kMetadata) kSourceURL)
            (pyOr (pyGetattr (pyGetattr (.vobj attrs dmp) kMetadata) kUrl)
              (pyGetattr (pyGetattr (.vobj attrs dmp) kMetadata) kOg_url))))) := by
  refine ⟨?_, ?_, ?_, ?_⟩
  · intro h
    have he : e ≠ [] := by
      intro hE; subst hE
      rw [dget_nil] at h
      exact Bool.noConfusion h
    unfold safe_get_url dictUrlChain
    rw [vdict_truthy he]
    simp [h]
  · intro h1 h2
    have he : e ≠ [] := by
      intro hE; subst hE
      rw [dget_nil] at h2
      exact Bool.noConfusion h2
    unfold safe_get_url dictUrlChain
    rw [vdict_truthy he]
    simp [h1, h2]
  · intro h1 h2 hm
    have he : e ≠ [] := by
      intro hE; subst hE
      rw [dget_nil] at hm
      exact PyVal.noConfusion hm
    unfold safe_get_url dictUrlChain
    rw [vdict_truthy he]
    simp only [Bool.false_eq_true, if_neg, reduceIte, h1, h2, hm]
    cases m with
    | nil =>
      simp [pyTruthy, asDict, dget, pyOr]
    | cons p ps =>
      rw [vdict_truthy (by simp)]
      simp only [asDict]
      by_cases hc1 : pyTruthy (dget (p :: ps) kSourceURL) <;>
        by_cases hc2 : pyTruthy (dget (p :: ps) kUrl) <;>
        simp [pyOr, hc1, hc2]
  · intro h1 h2 h3
    rw [safe_get_url_vobj]
    have hu : pyTruthy (pyOr (pyGetattr (.vobj attrs dmp) kUrl)
        (pyGetattr (.vobj attrs dmp) kSourceURL)) = false := by
      simp [pyOr, h1, h2]
    simp [hu, h3]

theorem claim_C6_witness :
    safe_get_url (.vdict [(kUrl, .vstr ['u']), (kMetadata, .vdict [(kUrl, .vstr ['x'])])]) =
      .ok (.vstr ['u']) := by
  have h := (claim_C6 [(kUrl, .vstr ['u']), (kMetadata, .vdict [(kUrl, .vstr ['x'])])]
    [] [] none).1 (by decide)
  rw [h]
  rfl

/-- **C6 counterexample**: when the only URL-ish field is a *present but
empty* `metadata.source_url`, no lookup is non-empty, yet `safe_get_url`
returns the empty string (the chain's last operand), not `null`. -/
theorem claim_C6_counterexample :
    safe_get_url (.vdict [(kMetadata, .vdict [(kSource_url, .vstr [])])]) =
      .ok (.vstr []) ∧ (PyVal.vstr [] ≠ PyVal.vnone) :=
  ⟨rfl, fun h => PyVal.noConfusion h⟩

theorem safe_get_url_vstr (s : PyStr) : safe_get_url (.vstr s) = .ok .vnone := by
  cases s with
  | nil => rfl
  | cons a as => rfl

theorem safe_get_markdown_vstr (s : PyStr) :
    safe_get_markdown (.vstr s) = .ok (.vstr []) := by
  cases s with
  | nil => rfl
  | cons a as => rfl

theorem safe_get_url_vint (n : Int) : safe_get_url (.vint n) = .ok .vnone := by
  unfold safe_get_url
  by_cases hn : pyTruthy (.vint n) = false
  · rw [if_pos hn]
  · rw [if_neg hn]
    rfl

theorem safe_get_markdown_vint (n : Int) :
    safe_get_markdown (.vint n) = .ok (.vstr []) := by
  unfold safe_get_markdown
  by_cases hn : pyTruthy (.vint n) = false
  · rw [if_pos hn]
  · rw [if_neg hn]
    rfl

theorem dictUrlChain_ok {e : Dict} (h : FieldDictOrFalsy e kMetadata) :
    ∃ v, dictUrlChain e = .ok v := by
  unfold dictUrlChain
  by_cases h1 : pyTruthy (dget e kUrl)
  · exact ⟨dget e kUrl, by simp [h1]⟩
  · by_cases h2 : pyTruthy (dget e kSourceURL)
    · exact ⟨dget e kSourceURL, by simp [h1, h2]⟩
    · by_cases h3 : pyTruthy (dget e kMetadata)
      · rcases h h3 with ⟨m, hm⟩
        rw [hm] at h3
        by_cases hc1 : pyTruthy (dget m kSourceURL)
        · exact ⟨dget m kSourceURL, by simp [h1, h2, hm, h3, asDict, hc1]⟩
        · by_cases hc2 : pyTruthy (dget m kUrl)
          · exact ⟨dget m kUrl, by simp [h1, h2, hm, h3, asDict, hc1, hc2]⟩
          · exact ⟨dget m kSource_url, by simp [h1, h2, hm, h3, asDict, hc1, hc2]⟩
      · refine ⟨dget ([] : Dict) kSource_url, ?_⟩
        simp only [if_neg h1, if_neg h2, if_neg h3]
        rfl

theorem dictMarkdownChain_ok {e : Dict} (h : FieldDictOrFalsy e kData) :
    ∃ v, dictMarkdownChain e = .ok v := by
  unfold dictMarkdownChain
  by_cases h1 : pyTruthy (dget e kMarkdown)
  · exact ⟨dget e kMarkdown, by simp [h1]⟩
  · by_cases h2 : pyTruthy (dget e kData)
    · rcases h h2 with ⟨m, hm⟩
      rw [hm] at h2
      by_cases hc1 : pyTruthy (dgetD m kMarkdown (.vstr []))
      · exact ⟨dgetD m kMarkdown (.vstr []), by simp [h1, hm, h2, asDict, hc1]⟩
      · exact ⟨.vstr [], by simp [h1, hm, h2, asDict, hc1]⟩
    · by_cases hc1 : pyTruthy (dgetD ([] : Dict) kMarkdown (.vstr []))
      · exact ⟨dgetD ([] : Dict) kMarkdown (.vstr []), by simp [h1, h2, hc1]⟩
      · exact ⟨.vstr [], by simp [h1, h2, hc1]⟩

theorem safe_get_url_ok {it : PyVal} (h : SafeShape it) :
    ∃ v, safe_get_url it = .ok v := by
  cases it with
  | vnone => exact ⟨_, rfl⟩
  | vstr s => exact ⟨.vnone, safe_get_url_vstr s⟩
  | vint n => exact ⟨.vnone, safe_get_url_vint n⟩
  | vbool b => cases b with
    | false => exact ⟨_, rfl⟩
    | true => exact ⟨_, rfl⟩
  | vlist xs => cases xs with
    | nil => exact ⟨_, rfl⟩
    | cons a as => exact ⟨_, rfl⟩
  | vdict e =>
    by_cases he : e = []
    · subst he; exact ⟨_, rfl⟩
    · have hc := dictUrlChain_ok h.1
      rcases hc with ⟨v, hv⟩
      refine ⟨v, ?_⟩
      unfold safe_get_url
      rw [vdict_truthy he]
      simpa using hv
  | vobj attrs dmp =>
    rw [safe_get_url_vobj]
    by_cases h1 : pyTruthy (pyOr (pyGetattr (.vobj attrs dmp) kUrl)
        (pyGetattr (.vobj attrs dmp) kSourceURL))
    · exact ⟨_, by rw [if_pos h1]⟩
    · rw [if_neg h1]
      by_cases h2 : pyTruthy (pyGetattr (.vobj attrs dmp) kMetadata)
      · exact ⟨_, by rw [if_pos h2]⟩
      · rw [if_neg h2]
        cases dmp with
        | none => exact ⟨_, rfl⟩
        | some d => exact dictUrlChain_ok (h d rfl).1

theorem safe_get_markdown_ok {it : PyVal} (h : SafeShape it) :
    ∃ v, safe_get_markdown it = .ok v := by
  cases it with
  | vnone => exact ⟨_, rfl⟩
  | vstr s => exact ⟨.vstr [], safe_get_markdown_vstr s⟩
  | vint n => exact ⟨.vstr [], safe_get_markdown_vint n⟩
  | vbool b => cases b with
    | false => exact ⟨_, rfl⟩
    | true => exact ⟨_, rfl⟩
  | vlist xs => cases xs with
    | nil => exact ⟨_, rfl⟩
    | cons a as => exact ⟨_, rfl⟩
  | vdict e =>
    by_cases he : e = []
    · subst he; exact ⟨_, rfl⟩
    · rcases dictMarkdownChain_ok h.2 with ⟨v, hv⟩
      refine ⟨v, ?_⟩
      unfold safe_get_markdown
      rw [vdict_truthy he]
      simpa using hv
  | vobj attrs dmp =>
    rw [safe_get_markdown_vobj]
    cases hga : pyGetattr (.vobj attrs dmp) kMarkdown with
    | vstr s => exact ⟨.vstr s, rfl⟩
    | vnone =>
      cases dmp with
      | none => exact ⟨_, rfl⟩
      | some d => exact dictMarkdownChain_ok (h d rfl).2
    | vint n =>
      cases dmp with
      | none => exact ⟨_, rfl⟩
      | some d => exact dictMarkdownChain_ok (h d rfl).2
    | vbool b =>
      cases dmp with
      | none => exact ⟨_, rfl⟩
      | some d => exact dictMarkdownChain_ok (h d rfl).2
    | vdict e' =>
      cases dmp with
      | none => exact ⟨_, rfl⟩
      | some d => exact dictMarkdownChain_ok (h d rfl).2
    | vlist xs =>
      cases dmp with
      | none => exact ⟨_, rfl⟩
      | some d => exact dictMarkdownChain_ok (h d rfl).2
    | vobj a' d' =>
      cases dmp with
      | none => exact ⟨_, rfl⟩
      | some d => exact dictMarkdownChain_ok (h d rfl).2

/-- **C7** (corrected). The claim fails for dict items with *arbitrary*
field values: a truthy non-dict `data` (for markdown) or `metadata` (for
URL) field makes `(... or \x7b\x7d).get(...)` call `.get` on a non-dict and
raise `AttributeError`.  Amended: for every item whose truthy
`metadata`/`data` fields (including those of a `model_dump` result) are
dicts, both normalizer functions return without raising; and for
non-dict/non-object inputs (`None`, strings, numbers) they degrade to
`null` and the empty string respectively. -/
theorem claim_C7 (it : PyVal) (h : SafeShape it) :
    ((∃ v, safe_get_url it = .ok v) ∧ (∃ v, safe_get_markdown it = .ok v)) ∧
    (∀ (s : PyStr) (n : Int),
      safe_get_url (.vstr s) = .ok .vnone ∧
      safe_get_markdown (.vstr s) = .ok (.vstr []) ∧
      safe_get_url (.vint n) = .ok .vnone ∧
      safe_get_markdown (.vint n) = .ok (.vstr []) ∧
      safe_get_url .vnone = .ok .vnone ∧
      safe_get_markdown .vnone = .ok (.vstr [])) := by
  refine ⟨⟨safe_get_url_ok h, safe_get_markdown_ok h⟩, ?_⟩
  intro s n
  exact ⟨safe_get_url_vstr s, safe_get_markdown_vstr s,
    safe_get_url_vint n, safe_get_markdown_vint n, rfl, rfl⟩

theorem claim_C7_witness :
    (∃ v, safe_get_url (.vdict [(kUrl, .vstr ['u'])]) = .ok v) ∧
    (∃ v, safe_get_markdown (.vdict [(kUrl, .vstr ['u'])]) = .ok v) :=
  (claim_C7 (.vdict [(kUrl, .vstr ['u'])])
    ⟨fun h => Bool.noConfusion h, fun h => Bool.noConfusion h⟩).1

/-- **C7 counterexample**: a dict whose `data` field is a truthy string
makes `safe_get_markdown` raise (`"x"` has no `.get`), and a dict whose
`metadata` field is a truthy int makes `safe_get_url` raise — the claim's
"never raise for arbitrary field values" is false. -/
theorem claim_C7_counterexample :
    safe_get_markdown (.vdict [(kData, .vstr ['x'])]) = .error () ∧
    safe_get_url (.vdict [(kMetadata, .vint 3)]) = .error () :=
  ⟨rfl, rfl⟩
theorem except_exists_ok {E A : Type} (x : Except E A)
    (h : ∀ e, x ≠ .error e) : ∃ a, x = .ok a := by
  cases x with
  | error e => exact absurd rfl (h e)
  | ok a => exact ⟨a, rfl⟩

theorem docSummaryLoop_break (g : PyStr → PyStr) (dl : Nat) (items : List PyVal)
    (acc : List SummaryEntry) (calls : Nat) (h : dl ≤ acc.length) :
    docSummaryLoop g dl items acc calls = .ok (acc, calls) := by
  cases items with
  | nil => rfl
  | cons item rest => rw [docSummaryLoop, if_pos h]

theorem docSummaryLoop_count (g : PyStr → PyStr) (hg : ∀ p, (g p).isEmpty = false)
    (dl : Nat) :
    ∀ items acc calls, (∀ it ∈ items, GoodItem it) →
      ∃ sums, docSummaryLoop g dl items acc calls =
        .ok (sums, calls + min (dl - acc.length) ((items.filter hasMd).length)) := by
  intro items
  induction items with
  | nil => intro acc calls _; exact ⟨acc, by simp [docSummaryLoop]⟩
  | cons item rest ih =>
    intro acc calls hgood
    by_cases hb : dl ≤ acc.length
    · refine ⟨acc, ?_⟩
      rw [docSummaryLoop_break g dl _ acc calls hb]
      have hz : dl - acc.length = 0 := by omega
      simp [hz]
    · obtain ⟨⟨url, hu⟩, ⟨s, hm⟩⟩ := hgood item (by simp)
      have hgrest : ∀ it ∈ rest, GoodItem it := fun it hit => hgood it (by simp [hit])
      have hmd : hasMd item = !s.isEmpty := by
        unfold hasMd
        rw [hm]
        rfl
      by_cases hs : s.isEmpty
      · -- empty markdown: the item is skipped
        have hfalse : pyTruthy (.vstr s) = false := by simp [pyTruthy, hs]
        rcases ih acc calls hgrest with ⟨sums, hsums⟩
        refine ⟨sums, ?_⟩
        rw [docSummaryLoop, if_neg hb, hu, hm]
        simp only [hfalse, reduceIte]
        rw [hsums]
        have hf : (item :: rest).filter hasMd = rest.filter hasMd :=
          List.filter_cons_of_neg (by simp [hmd, hs])
        rw [hf]
      · -- non-empty markdown: one genai call, one summary appended
        have htrue : pyTruthy (.vstr s) = true := by simp [pyTruthy, hs]
        have hsum : summarize_document g (.vstr s) url =
            .ok (some (g (docPrompt (compress_for_single_request s 20000) url))) := by
          unfold summarize_document
          rw [if_neg (by simp [htrue])]
        have hresp := hg (docPrompt (compress_for_single_request s 20000) url)
        rcases ih (acc ++ [⟨url, g (docPrompt (compress_for_single_request s 20000) url)⟩])
          (calls + 1) hgrest with ⟨sums, hsums⟩
        refine ⟨sums, ?_⟩
        rw [docSummaryLoop, if_neg hb, hu, hm]
        simp only [htrue, Bool.true_eq_false, reduceIte, hsum, hresp]
        rw [hsums]
        have hf : (item :: rest).filter hasMd = item :: rest.filter hasMd :=
          List.filter_cons_of_pos (by simp [hmd, hs])
        rw [hf]
        have harith : calls + 1 + min (dl - (acc ++
            [(⟨url, g (docPrompt (compress_for_single_request s 20000) url)⟩ :
              SummaryEntry)]).length) ((rest.filter hasMd).length) =
            calls + min (dl - acc.length) ((item :: (rest.filter hasMd)).length) := by
          simp only [List.length_append, List.length_cons, List.length_nil]
          omega
        rw [harith]
        simp

/-- **C1** (corrected). The orchestrator does compute
`doc_limit = min(searchLimit, max(0, max_genai_calls - 2))` and stops
after `doc_limit` summaries, but the number of summary calls actually
issued also depends on how many review results carry non-empty markdown:
with `K` such results (and non-empty model responses) the number of calls
is `min(doc_limit, K)`, which is strictly below `min(L, max(0, N-2))`
whenever the backend returns fewer usable documents than the budget. -/
theorem claim_C1 (g : PyStr → PyStr) (items : List PyVal)
    (searchLimit max_genai_calls : Nat)
    (hgood : ∀ it ∈ items, GoodItem it) (hg : ∀ p, (g p).isEmpty = false) :
    ∃ sums, docSummaryLoop g (doc_limit searchLimit max_genai_calls) items [] 0 =
      .ok (sums, min (doc_limit searchLimit max_genai_calls)
        ((items.filter hasMd).length)) := by
  have h := docSummaryLoop_count g hg (doc_limit searchLimit max_genai_calls)
    items [] 0 hgood
  simpa using h

theorem claim_C1_witness :
    ∃ sums, docSummaryLoop (fun _ => ['s']) (doc_limit 5 10)
        [.vdict [(kMarkdown, .vstr ['m']), (kUrl, .vstr ['u'])]] [] 0 =
      .ok (sums, min (doc_limit 5 10)
        (([(.vdict [(kMarkdown, .vstr ['m']), (kUrl, .vstr ['u'])] : PyVal)].filter
          hasMd).length)) :=
  claim_C1 (fun _ => ['s']) [.vdict [(kMarkdown, .vstr ['m']), (kUrl, .vstr ['u'])]] 5 10
    (by
      intro it hit
      simp only [List.mem_singleton] at hit
      subst hit
      exact ⟨⟨.vstr ['u'], rfl⟩, ⟨['m'], rfl⟩⟩)
    (fun _ => rfl)

/-- **C1 counterexample**: with `max_genai_calls = 10` and
`searchLimit = 5` but an empty review-result list, zero summary calls are
issued, not `min(5, max(0, 10-2)) = 5`. -/
theorem claim_C1_counterexample :
    docSummaryLoop (fun _ => ['x']) (doc_limit 5 10) [] [] 0 = .ok ([], 0) ∧
    (0 : Nat) ≠ min 5 (max 0 (10 - 2)) :=
  ⟨rfl, by decide⟩

/-- **C9** (confirmed). An item whose normalized markdown is falsy is
skipped: processing it is a no-op of the summary loop — no summary call is
issued for it and no entry for it is appended. -/
theorem claim_C9 (g : PyStr → PyStr) (dl : Nat) (item : PyVal) (rest : List PyVal)
    (acc : List SummaryEntry) (calls : Nat) (url md : PyVal)
    (hu : safe_get_url item = .ok url) (hm : safe_get_markdown item = .ok md)
    (hmd : pyTruthy md = false) :
    docSummaryLoop g dl (item :: rest) acc calls =
      docSummaryLoop g dl rest acc calls := by
  by_cases hb : dl ≤ acc.length
  · rw [docSummaryLoop_break g dl _ acc calls hb,
      docSummaryLoop_break g dl rest acc calls hb]
  · rw [docSummaryLoop, if_neg hb, hu, hm]
    simp only [hmd, reduceIte]

theorem claim_C9_witness :
    docSummaryLoop (fun _ => []) 1 [.vdict []] [] 0 =
      docSummaryLoop (fun _ => []) 1 [] [] 0 :=
  claim_C9 (fun _ => []) 1 (.vdict []) [] [] 0 .vnone (.vstr []) rfl rfl rfl

theorem docSummaryLoop_ok (g : PyStr → PyStr) (dl : Nat) :
    ∀ items acc calls, (∀ it ∈ items, GoodItem it) →
      ∃ r, docSummaryLoop g dl items acc calls = .ok r := by
  intro items
  induction items with
  | nil => intro acc calls _; exact ⟨(acc, calls), rfl⟩
  | cons item rest ih =>
    intro acc calls hgood
    by_cases hb : dl ≤ acc.length
    · exact ⟨(acc, calls), docSummaryLoop_break g dl _ acc calls hb⟩
    · obtain ⟨⟨url, hu⟩, ⟨s, hm⟩⟩ := hgood item (by simp)
      have hgrest : ∀ it ∈ rest, GoodItem it := fun it hit => hgood it (by simp [hit])
      by_cases hs : s.isEmpty
      · have hfalse : pyTruthy (.vstr s) = false := by simp [pyTruthy, hs]
        rcases ih acc calls hgrest with ⟨r, hr⟩
        refine ⟨r, ?_⟩
        rw [docSummaryLoop, if_neg hb, hu, hm]
        simp only [hfalse, reduceIte]
        exact hr
      · have htrue : pyTruthy (.vstr s) = true := by simp [pyTruthy, hs]
        have hsum : summarize_document g (.vstr s) url =
            .ok (some (g (docPrompt (compress_for_single_request s 20000) url))) := by
          unfold summarize_document
          rw [if_neg (by simp [htrue])]
        by_cases hre : (g (docPrompt (compress_for_single_request s 20000) url)).isEmpty
        · rcases ih acc (calls + 1) hgrest with ⟨r, hr⟩
          refine ⟨r, ?_⟩
          rw [docSummaryLoop, if_neg hb, hu, hm]
          simp only [htrue, Bool.true_eq_false, reduceIte, hsum, hre]
          exact hr
        · rcases ih (acc ++ [⟨url, g (docPrompt (compress_for_single_request s 20000) url)⟩])
            (calls + 1) hgrest with ⟨r, hr⟩
          refine ⟨r, ?_⟩
          rw [docSummaryLoop, if_neg hb, hu, hm]
          simp only [htrue, Bool.true_eq_false, reduceIte, hsum, hre]
          exact hr

theorem specsCollect_ok :
    ∀ l : List PyVal, (∀ it ∈ l, GoodItem it) → ∃ p, specsCollect l = .ok p := by
  intro l
  induction l with
  | nil => intro _; exact ⟨([], []), rfl⟩
  | cons item rest ih =>
    intro hgood
    obtain ⟨⟨url, hu⟩, ⟨s, hm⟩⟩ := hgood item (by simp)
    rcases ih (fun it hit => hgood it (by simp [hit])) with ⟨⟨ts, us⟩, hr⟩
    by_cases hs : pyTruthy (.vstr s)
    · refine ⟨(.vstr s :: ts, pyOr url (.vstr "unknown".toList) :: us), ?_⟩
      rw [specsCollect, hu, hm, hr]
      simp only [hs, reduceIte]
    · refine ⟨(ts, us), ?_⟩
      rw [specsCollect, hu, hm, hr]
      simp [hs]

/-- **C8** (confirmed). For the spec-extraction response text (the value
of `specsG` on the extraction prompt): when `json.loads` succeeds,
`extract_specs_from_docs` returns the parsed value; when it fails, the
function returns the raw-text wrapper (Python `{"raw": text}`, modelled
as `SpecsOutcome.raw text`) instead of raising; and in either case the
pipeline still completes and returns a final report (the completion
conjunct holds for an arbitrary `loads`, succeeding or failing). -/
theorem claim_C8 {J : Type} (items specsItems : List PyVal)
    (docG specsG finalG : PyStr → PyStr) (loads : PyStr → Option J)
    (dumps : SpecsOutcome J → PyStr) (searchLimit specLimit max_genai_calls : Nat)
    (car_label : PyStr)
    (hitems : ∀ it ∈ items, GoodItem it) (hspecs : ∀ it ∈ specsItems, GoodItem it) :
    (∀ texts urls v, loads (specsG (specsPrompt texts urls)) = some v →
      extract_specs_from_docs texts urls specsG loads = .parsed v) ∧
    (∀ texts urls, loads (specsG (specsPrompt texts urls)) = none →
      extract_specs_from_docs texts urls specsG loads =
        .raw (specsG (specsPrompt texts urls))) ∧
    (∃ out, search_and_summarize items specsItems docG specsG finalG loads dumps
      searchLimit specLimit max_genai_calls car_label = .ok out) := by
  refine ⟨?_, ?_, ?_⟩
  · intro texts urls v hv
    unfold extract_specs_from_docs
    simp only [hv]
  · intro texts urls hfail
    unfold extract_specs_from_docs
    simp only [hfail]
  · rcases docSummaryLoop_ok docG (doc_limit searchLimit max_genai_calls) items [] 0
      hitems with ⟨⟨sums, calls⟩, hdoc⟩
    rcases specsCollect_ok (specsItems.take specLimit)
      (fun it hit => hspecs it (List.take_subset _ _ hit)) with ⟨⟨ts, us⟩, hcol⟩
    apply except_exists_ok
    intro e he
    unfold search_and_summarize at he
    simp [hdoc, hcol] at he

theorem claim_C8_witness :
    (@extract_specs_from_docs Unit [] [] (fun _ => ['j']) (fun _ => some ()) =
      .parsed ()) ∧
    (@extract_specs_from_docs Unit [] [] (fun _ => ['n']) (fun _ => none) =
      .raw ((fun _ : PyStr => ['n']) (specsPrompt [] []))) ∧
    (∃ out, @search_and_summarize Unit [] [] (fun _ => []) (fun _ => ['n'])
      (fun _ => []) (fun _ => none) (fun _ => []) 5 3 10 [] = .ok out) := by
  have hsucc := @claim_C8 Unit [] [] (fun _ => []) (fun _ => ['j']) (fun _ => [])
    (fun _ => some ()) (fun _ => []) 5 3 10 []
    (fun it hit => absurd hit (List.not_mem_nil it))
    (fun it hit => absurd hit (List.not_mem_nil it))
  have hfailed := @claim_C8 Unit [] [] (fun _ => []) (fun _ => ['n']) (fun _ => [])
    (fun _ => none) (fun _ => []) 5 3 10 []
    (fun it hit => absurd hit (List.not_mem_nil it))
    (fun it hit => absurd hit (List.not_mem_nil it))
  exact ⟨hsucc.1 [] [] () rfl, hfailed.2.1 [] [] rfl, hfailed.2.2⟩

/-- **C10** (confirmed). The scrape-options prologue copies
`DEFAULT_SCRAPE_OPTS` in both branches and applies caller overrides only
to the copy, so the dict at the default's reference is unchanged after the
merge. -/
theorem claim_C10 (st : Store) (so : Option Dict)
    (h0 : st.read 0 = DEFAULT_SCRAPE_OPTS) (hlen : 0 < st.dicts.length) :
    ((setupOpts st 0 so).1).read 0 = DEFAULT_SCRAPE_OPTS := by
  unfold setupOpts
  have hcopy : (⟨st.dicts ++ [st.read 0]⟩ : Store).read 0 = DEFAULT_SCRAPE_OPTS := by
    unfold Store.read
    rw [List.getD_append _ _ _ _ hlen]
    exact h0
  by_cases hso : optTruthy so
  · rw [if_pos hso]
    unfold Store.copy Store.update Store.read
    simp only
    rw [List.getD_eq_getElem?_getD, List.getElem?_set_ne (by omega),
      ← List.getD_eq_getElem?_getD, List.getD_append _ _ _ _ hlen]
    exact h0
  · rw [if_neg hso]
    unfold Store.copy
    exact hcopy

theorem claim_C10_witness :
    ((setupOpts ⟨[DEFAULT_SCRAPE_OPTS]⟩ 0 (some [("timeout".toList, .vint 5)])).1).read 0 =
      DEFAULT_SCRAPE_OPTS :=
  claim_C10 ⟨[DEFAULT_SCRAPE_OPTS]⟩ (some [("timeout".toList, .vint 5)]) rfl
    (by simp)

end CarCheckerAI
